import Mathlib

/-!
Verification of the rDock dock rendering and interaction engine.

The definitions below are a shallow embedding of the Rust sources:
* `src/renderer.rs` — layout walk (`Renderer::render` first pass),
  `Renderer::hit_test`, `bicubic_sample`, `cubic_hermite`, `alpha_blend`;
* `src/main.rs` — `DockApp::update_animations`, `DockApp::check_hide`,
  `DockApp::is_animating`, `DockApp::get_drop_index`, and the
  `WindowEvent::CursorLeft` / left-button-release handlers;
* `src/config.rs` — `DockItem::is_separator`.

Machine floats (`f32`) are embedded as exact rationals (or reals where the
source uses `cos`), machine integers (`u32`, `usize`, `i32`) as `Nat`/`Int`
with the source's truncating casts made explicit.
-/

namespace RDock

/-- `config.rs`: `DockItem`.  Only the fields that the embedded operations
inspect are kept (`name`, `separator`); `path`, `icon`, `args` and `special`
never influence layout, hit-testing or reordering decisions modelled here. -/
structure DockItem where
  name : String
  separator : Bool
deriving DecidableEq, Repr, Inhabited

/-- `config.rs`: `DockItem::is_separator`: `self.separator || self.name == "---"`. -/
def DockItem.is_separator (it : DockItem) : Bool :=
  it.separator || it.name == "---"

/-- The `Renderer` fields used by layout and hit-testing
(`renderer.rs`, struct `Renderer`): surface `width`, `icon_size`,
`spacing.x`, `padding.top`, `padding.left`. -/
structure Renderer where
  width : ℕ
  icon_size : ℕ
  spacing_x : ℕ
  padding_top : ℕ
  padding_left : ℕ
deriving DecidableEq, Repr

/-- Width contributed by one non-dragged item in `Renderer::render`'s first
pass: `icon_size / 3` (integer division, then cast to `f32`) for separators,
`icon_size as f32 * scale` otherwise. -/
def itemWidth (r : Renderer) (it : DockItem) (scale : ℚ) : ℚ :=
  if it.is_separator then ((r.icon_size / 3 : ℕ) : ℚ)
  else (r.icon_size : ℚ) * scale

/-- `Renderer::render` first pass (`renderer.rs` lines 159–174) with no drag
session: `for i in 0..items.len()` accumulate the item width from
`scales.get(i).copied().unwrap_or(1.0)` and add `spacing.x` whenever
`i < items.len() - 1`.  The recursion walks the list exactly as the loop
walks indices; `scales.headD 1`/`scales.tail` realise `scales.get(i)`
with default `1.0`. -/
def render_total_width (r : Renderer) : List DockItem → List ℚ → ℚ
  | [], _ => 0
  | it :: rest, scales =>
      itemWidth r it (scales.headD 1) +
      (if rest.isEmpty then 0 else (r.spacing_x : ℚ)) +
      render_total_width r rest scales.tail

/-- The list of per-item widths that the same walk assigns to the slots
(normal item: `icon_size * scale`; separator: `icon_size / 3`). -/
def widthsList (r : Renderer) : List DockItem → List ℚ → List ℚ
  | [], _ => []
  | it :: rest, scales =>
      itemWidth r it (scales.headD 1) :: widthsList r rest scales.tail

theorem widthsList_length (r : Renderer) (items : List DockItem) (scales : List ℚ) :
    (widthsList r items scales).length = items.length := by
  induction items generalizing scales with
  | nil => rfl
  | cons it rest ih => simp [widthsList, ih]

/-- **C1.** With no drag session, the total row width computed by the layout
walk of `Renderer::render` equals the sum of the per-item widths plus
`(n-1) * spacing`; for the empty list it is `0`. -/
theorem render_total_width_spec (r : Renderer) (items : List DockItem)
    (scales : List ℚ) :
    render_total_width r items scales
      = (widthsList r items scales).sum
        + ((items.length - 1 : ℕ) : ℚ) * (r.spacing_x : ℚ)
      ∧ render_total_width r [] scales = 0 := by
  constructor
  · induction items generalizing scales with
    | nil => simp [render_total_width, widthsList]
    | cons it rest ih =>
      cases rest with
      | nil => simp [render_total_width, widthsList, itemWidth]
      | cons b bs =>
        have h := ih scales.tail
        simp only [render_total_width, widthsList, List.isEmpty_cons,
          List.sum_cons] at h ⊢
        rw [h]
        push_cast [List.length_cons, Nat.add_sub_cancel]
        ring
  · rfl

/-! ### Hit testing (`Renderer::hit_test`, renderer.rs lines 692–740) -/

/-- Per-item width used by `hit_test`'s walk (all scales fixed at `1.0`):
`icon_size / 3` (integer division) for separators, `icon_size` otherwise. -/
def hit_item_width (r : Renderer) (it : DockItem) : ℚ :=
  if it.is_separator then ((r.icon_size / 3 : ℕ) : ℚ) else (r.icon_size : ℚ)

/-- The total-width loop of `hit_test` (lines 703–713): accumulate each item's
width and add `spacing.x` whenever `i < items.len() - 1`. -/
def hit_total_width (r : Renderer) : List DockItem → ℚ
  | [] => 0
  | it :: rest =>
      hit_item_width r it +
      (if rest.isEmpty then 0 else (r.spacing_x : ℚ)) +
      hit_total_width r rest

/-- `start_x = (self.width as f32 - total_width) / 2.0` (line 716). -/
def hit_start_x (r : Renderer) (items : List DockItem) : ℚ :=
  ((r.width : ℚ) - hit_total_width r items) / 2

/-- The slot walk of `hit_test` (lines 719–737): each item's hit span runs
from `x_pos - spacing/2` to `x_pos + item_width + spacing/2`; the first item
whose span contains `x` is returned.  The source compares `x as f32`; the
coordinate is taken here as an exact rational. -/
def hit_test_walk (r : Renderer) (x : ℚ) : ℚ → List DockItem → ℕ → Option ℕ
  | _, [], _ => none
  | x_pos, it :: rest, i =>
      let item_width := hit_item_width r it
      let half_spacing := (r.spacing_x : ℚ) / 2
      if x_pos - half_spacing ≤ x ∧ x < x_pos + item_width + half_spacing then
        some i
      else
        hit_test_walk r x (x_pos + item_width + (r.spacing_x : ℚ)) rest (i + 1)

/-- Vertical tolerance of `hit_test`: `extra = (icon_size as f32 * 0.3) as i32`
(line 694); for icon sizes in the source's range the truncated `f32` product
is `3 * icon_size / 10` in integer arithmetic. -/
def hit_extra (r : Renderer) : ℕ := 3 * r.icon_size / 10

/-- The vertical acceptance band of `hit_test` (lines 695–700):
`padding.top - extra ≤ y < padding.top + icon_size + extra`. -/
def in_icon_band (r : Renderer) (y : ℚ) : Prop :=
  (r.padding_top : ℚ) - (hit_extra r : ℚ) ≤ y ∧
  y < ((r.padding_top : ℚ) + (r.icon_size : ℚ)) + (hit_extra r : ℚ)

instance (r : Renderer) (y : ℚ) : Decidable (in_icon_band r y) := by
  unfold in_icon_band; infer_instance

/-- `Renderer::hit_test` (renderer.rs lines 692–740). -/
def hit_test (r : Renderer) (x y : ℚ) (items : List DockItem) : Option ℕ :=
  if y < (r.padding_top : ℚ) - (hit_extra r : ℚ) ∨
     ((r.padding_top : ℚ) + (r.icon_size : ℚ)) + (hit_extra r : ℚ) ≤ y then
    none
  else
    hit_test_walk r x (hit_start_x r items) items 0

/-- Accumulated width of the first `k` slots (item width plus spacing each),
i.e. the offset of slot `k` from `start_x` in `hit_test`'s walk. -/
def prefix_width (r : Renderer) : List DockItem → ℕ → ℚ
  | _, 0 => 0
  | [], _ + 1 => 0
  | it :: rest, k + 1 =>
      hit_item_width r it + (r.spacing_x : ℚ) + prefix_width r rest k

/-- The x-position `hit_test`'s walk assigns to slot `k`. -/
def slot_x (r : Renderer) (items : List DockItem) (k : ℕ) : ℚ :=
  hit_start_x r items + prefix_width r items k

theorem hit_item_width_nonneg (r : Renderer) (it : DockItem) :
    0 ≤ hit_item_width r it := by
  unfold hit_item_width
  split <;> positivity

theorem hit_item_width_pos (r : Renderer) (h3 : 3 ≤ r.icon_size)
    (it : DockItem) : 0 < hit_item_width r it := by
  unfold hit_item_width
  split
  · have : 0 < r.icon_size / 3 := Nat.div_pos h3 (by norm_num)
    exact_mod_cast this
  · exact_mod_cast lt_of_lt_of_le (by norm_num) h3

theorem prefix_width_nonneg (r : Renderer) (items : List DockItem) (k : ℕ) :
    0 ≤ prefix_width r items k := by
  induction items generalizing k with
  | nil => cases k <;> simp [prefix_width]
  | cons it rest ih =>
    cases k with
    | zero => simp [prefix_width]
    | succ k' =>
      have h1 := hit_item_width_nonneg r it
      have h2 := ih k'
      unfold prefix_width
      positivity

theorem hit_test_walk_midpoint (r : Renderer) (h3 : 3 ≤ r.icon_size) :
    ∀ (items : List DockItem) (k : ℕ), k < items.length →
    ∀ (x_pos : ℚ) (i : ℕ),
      hit_test_walk r
        (x_pos + prefix_width r items k
              + hit_item_width r (items.getD k default) / 2)
        x_pos items i = some (i + k) := by
  intro items
  induction items with
  | nil => intro k hk; simp at hk
  | cons it rest ih =>
    intro k hk x_pos i
    cases k with
    | zero =>
      have hw := hit_item_width_pos r h3 it
      have hs : (0:ℚ) ≤ (r.spacing_x : ℚ) := by positivity
      unfold hit_test_walk
      rw [if_pos]
      · simp [prefix_width]
      constructor
      · simp only [prefix_width, List.getD_cons_zero]
        linarith
      · simp only [prefix_width, List.getD_cons_zero]
        linarith
    | succ k' =>
      have hw0 := hit_item_width_pos r h3 it
      have hwk := hit_item_width_nonneg r (rest.getD k' default)
      have hpw := prefix_width_nonneg r rest k'
      have hs : (0:ℚ) ≤ (r.spacing_x : ℚ) := by positivity
      have hk' : k' < rest.length := by
        simpa [Nat.succ_lt_succ_iff] using hk
      unfold hit_test_walk
      rw [if_neg]
      · have := ih k' hk' (x_pos + hit_item_width r it + (r.spacing_x : ℚ)) (i + 1)
        simp only [prefix_width, List.getD_cons_succ]
        rw [show x_pos + (hit_item_width r it + (r.spacing_x : ℚ) + prefix_width r rest k')
              + hit_item_width r (rest.getD k' default) / 2
            = (x_pos + hit_item_width r it + (r.spacing_x : ℚ)) + prefix_width r rest k'
              + hit_item_width r (rest.getD k' default) / 2 by ring]
        rw [this]
        congr 1
        omega
      · simp only [prefix_width, List.getD_cons_succ, not_and, not_lt]
        intro _
        linarith

/-- **C2.** For every item list and every item index `k`, `hit_test` at the
horizontal midpoint of slot `k` (layout at all scales `1.0`, no drag) and at
any `y` inside the icon band returns `some k`.  Requires a nondegenerate
configuration (`3 ≤ icon_size`, so every slot, separator slots included, has
positive width). -/
theorem hit_test_midpoint (r : Renderer) (items : List DockItem) (k : ℕ)
    (y : ℚ) (h3 : 3 ≤ r.icon_size) (hk : k < items.length)
    (hy : in_icon_band r y) :
    hit_test r (slot_x r items k + hit_item_width r (items.getD k default) / 2)
      y items = some k := by
  obtain ⟨hy1, hy2⟩ := hy
  unfold hit_test
  rw [if_neg (by push_neg; exact ⟨by simpa using hy1, by simpa using hy2⟩)]
  have := hit_test_walk_midpoint r h3 items k hk (hit_start_x r items) 0
  simpa [slot_x] using this

/-- Witness for C2: icon size 48, spacing 12, surface width 200, items
`[app, separator, app]`, midpoint of slot 1 at `y = 12`. -/
theorem hit_test_midpoint_witness :
    3 ≤ (Renderer.mk 200 48 12 12 0).icon_size ∧
    1 < ([⟨"a", false⟩, ⟨"---", true⟩, ⟨"b", false⟩] : List DockItem).length ∧
    in_icon_band (Renderer.mk 200 48 12 12 0) 12 ∧
    hit_test (Renderer.mk 200 48 12 12 0)
      (slot_x (Renderer.mk 200 48 12 12 0)
          [⟨"a", false⟩, ⟨"---", true⟩, ⟨"b", false⟩] 1
        + hit_item_width (Renderer.mk 200 48 12 12 0)
            (([⟨"a", false⟩, ⟨"---", true⟩, ⟨"b", false⟩] : List DockItem).getD 1 default) / 2)
      12 [⟨"a", false⟩, ⟨"---", true⟩, ⟨"b", false⟩] = some 1 :=
  ⟨by decide, by decide, by norm_num [in_icon_band, hit_extra],
    hit_test_midpoint (Renderer.mk 200 48 12 12 0)
      [⟨"a", false⟩, ⟨"---", true⟩, ⟨"b", false⟩] 1 12
      (by decide) (by decide) (by norm_num [in_icon_band, hit_extra])⟩

/-! ### Drag-release reorder (`DockApp::window_event`, MouseInput Released,
main.rs lines 1267–1293) -/

/-- The reorder performed on primary-button release while dragging
(main.rs 1270–1279), given the already-computed drop index: if
`to_idx != from_idx && to_idx != from_idx + 1`, remove the item at
`from_idx` and insert it at `to_idx - 1` when `to_idx > from_idx`, else at
`to_idx`; the boolean records whether `save_config` + `needs_reload`
(persist + reload) were signaled. -/
def apply_drop (items : List DockItem) (from_idx to_idx : ℕ) :
    List DockItem × Bool :=
  if to_idx ≠ from_idx ∧ to_idx ≠ from_idx + 1 then
    let item := items.getD from_idx default
    let removed := items.eraseIdx from_idx
    let insert_idx := if from_idx < to_idx then to_idx - 1 else to_idx
    (removed.insertIdx insert_idx item, true)
  else
    (items, false)

/-- **C4.** Release while dragging: adjacent drop indices are a no-op with no
persistence; otherwise the item moves (index adjusted for the removal) and
persistence is signaled; dropping at index `0` moves the dragged item to the
front.  The length is preserved by every non-no-op move. -/
theorem apply_drop_spec (items : List DockItem) (f t : ℕ)
    (hf : f < items.length) (ht : t ≤ items.length) :
    ((t = f ∨ t = f + 1) → apply_drop items f t = (items, false)) ∧
    (t ≠ f → t ≠ f + 1 →
      apply_drop items f t
        = ((items.eraseIdx f).insertIdx (if f < t then t - 1 else t)
            (items.getD f default), true)) ∧
    (t ≠ f → t ≠ f + 1 → ((apply_drop items f t).1).length = items.length) ∧
    (0 < f → (apply_drop items f 0).1 = items.getD f default :: items.eraseIdx f) := by
  refine ⟨?_, ?_, ?_, ?_⟩
  · rintro (rfl | rfl) <;> simp [apply_drop]
  · intro h1 h2
    rw [apply_drop, if_pos ⟨h1, h2⟩]
  · intro h1 h2
    rw [apply_drop, if_pos ⟨h1, h2⟩]
    have hlen : (items.eraseIdx f).length = items.length - 1 := by
      rw [List.length_eraseIdx, if_pos hf]
    have hidx : (if f < t then t - 1 else t) ≤ (items.eraseIdx f).length := by
      rw [hlen]; split <;> omega
    simp only []
    rw [List.length_insertIdx _ _ hidx, hlen]
    omega
  · intro hfpos
    have h1 : (0:ℕ) ≠ f := by omega
    have h2 : (0:ℕ) ≠ f + 1 := by omega
    rw [apply_drop, if_pos ⟨h1, h2⟩]
    simp [show ¬ f < 0 by omega, List.insertIdx_zero]

/-- Witness for C4: three items, drag the one at index 2 to drop index 0. -/
theorem apply_drop_spec_witness :
    2 < ([⟨"a", false⟩, ⟨"b", false⟩, ⟨"c", false⟩] : List DockItem).length ∧
    0 ≤ ([⟨"a", false⟩, ⟨"b", false⟩, ⟨"c", false⟩] : List DockItem).length ∧
    (0 < 2 →
      (apply_drop [⟨"a", false⟩, ⟨"b", false⟩, ⟨"c", false⟩] 2 0).1
        = ([⟨"a", false⟩, ⟨"b", false⟩, ⟨"c", false⟩] : List DockItem).getD 2 default
          :: ([⟨"a", false⟩, ⟨"b", false⟩, ⟨"c", false⟩] : List DockItem).eraseIdx 2) :=
  ⟨by decide, by decide,
    (apply_drop_spec [⟨"a", false⟩, ⟨"b", false⟩, ⟨"c", false⟩] 2 0
      (by decide) (by decide)).2.2.2⟩

/-! ### Interaction state and the pointer-leave handler
(`DockApp::window_event`, `WindowEvent::CursorLeft`, main.rs lines 1238–1254) -/

/-- The `DockApp` fields read or written by the embedded handlers.  `saved`
records whether `save_config` has been called (the persistence signal),
`hide_timer`/`show_timer` hold the arming timestamp in milliseconds. -/
structure DockApp where
  cursor_in_window : Bool
  cursor_x : ℚ
  cursor_y : ℚ
  hovered_item : Option ℕ
  dragging : Bool
  drag_start_idx : Option ℕ
  hide_timer : Option ℕ
  tooltip_visible : Bool
  items : List DockItem
  saved : Bool
  needs_reload : Bool
  dock_y_current : ℚ
  dock_y_visible : ℚ
  dock_y_target : ℚ
  auto_hide : Bool
  icon_scales : List ℚ
deriving Repr

/-- `DockApp::start_hide` (main.rs 843–847): arm the hide timer at the
current time if `auto_hide` is on and no timer is armed. -/
def start_hide (now : ℕ) (s : DockApp) : DockApp :=
  if s.auto_hide && s.hide_timer.isNone then { s with hide_timer := some now }
  else s

/-- The `CursorLeft` handler (main.rs 1238–1254): clear cursor state, hover
and both drag fields, arm the hide timer when the dock is (within 5px of)
fully visible, and hide the tooltip. -/
def cursor_left (now : ℕ) (s : DockApp) : DockApp :=
  let s1 := { s with cursor_in_window := false, cursor_x := -1000,
                     cursor_y := -1000, hovered_item := none,
                     dragging := false, drag_start_idx := none }
  let s2 := if |s1.dock_y_current - s1.dock_y_visible| < 5 then start_hide now s1
            else s1
  { s2 with tooltip_visible := false }

/-- **C9.** Pointer leave, from any drag sub-state: hover is cleared, the
drag session is cancelled (both the pending-press index and the dragging
flag), the item list is unchanged, and no persistence or reload is signaled. -/
theorem cursor_left_spec (now : ℕ) (s : DockApp) :
    (cursor_left now s).hovered_item = none ∧
    (cursor_left now s).dragging = false ∧
    (cursor_left now s).drag_start_idx = none ∧
    (cursor_left now s).cursor_in_window = false ∧
    (cursor_left now s).items = s.items ∧
    (cursor_left now s).saved = s.saved ∧
    (cursor_left now s).needs_reload = s.needs_reload := by
  unfold cursor_left start_hide
  dsimp only []
  split
  · split <;> simp
  · simp

/-! ### `DockApp::is_animating` (main.rs lines 1036–1047) -/

/-- `DockApp::is_animating`: dock still moving
(`(dock_y_target - dock_y_current).abs() > 0.5`), some icon scale away from
rest (`(scale - 1.0).abs() > 0.01`), a hide timer armed, or the cursor
inside the dock surface. -/
def is_animating (s : DockApp) : Bool :=
  let dock_animating := decide ((1:ℚ)/2 < |s.dock_y_target - s.dock_y_current|)
  let icons_animating := s.icon_scales.any fun scale =>
    decide ((1:ℚ)/100 < |scale - 1|)
  let hide_pending := s.hide_timer.isSome
  dock_animating || icons_animating || hide_pending || s.cursor_in_window

/-- The needs-another-frame condition exactly as claim C7 words it: dock
residual at least `0.5`, or some icon's scale at least `0.001` away from its
per-tick target, or hide timer armed, or cursor inside the surface.  With
the cursor outside the dock the per-tick target of every icon is `1.0`
(`DockApp::update_animations`, main.rs 637–652). -/
def c7_claimed_condition (s : DockApp) (targets : List ℚ) : Prop :=
  (1:ℚ)/2 ≤ |s.dock_y_target - s.dock_y_current| ∨
  (∃ i < s.icon_scales.length,
      (1:ℚ)/1000 ≤ |s.icon_scales.getD i 1 - targets.getD i 1|) ∨
  s.hide_timer.isSome = true ∨ s.cursor_in_window = true

/-- The state refuting C7: cursor outside the dock (so every icon's target is
`1.0`), no timer, dock settled, single icon scale `1.005`. -/
def c7_state : DockApp where
  cursor_in_window := false
  cursor_x := -1000
  cursor_y := -1000
  hovered_item := none
  dragging := false
  drag_start_idx := none
  hide_timer := none
  tooltip_visible := false
  items := [⟨"a", false⟩]
  saved := false
  needs_reload := false
  dock_y_current := 0
  dock_y_visible := 0
  dock_y_target := 0
  auto_hide := true
  icon_scales := [201/200]

/-- **C7 counterexample.** In `c7_state` the icon's scale `1.005` differs
from its per-tick target `1.0` by `0.005 ≥ 0.001`, so the claim's condition
holds, yet `is_animating` returns `false`: the code tests the distance of
each scale from `1.0` against `0.01`, not the distance from the target
against `0.001`. -/
theorem is_animating_counterexample :
    c7_claimed_condition c7_state [1] ∧ is_animating c7_state = false := by
  have habs : |(201:ℚ)/200 - 1| = 1/200 := by
    rw [show (201:ℚ)/200 - 1 = 1/200 by norm_num]
    exact abs_of_nonneg (by norm_num)
  constructor
  · refine Or.inr (Or.inl ⟨0, by simp [c7_state], ?_⟩)
    simp only [c7_state, List.getD_cons_zero]
    rw [habs]
    norm_num
  · simp only [is_animating, c7_state, List.any_cons, List.any_nil,
      Option.isSome_none, Bool.or_false, Bool.false_or, Bool.or_eq_false_iff,
      decide_eq_false_iff_not, not_lt, sub_self, abs_zero]
    rw [habs]
    norm_num

/-- **C7 amended.** `is_animating` returns `true` exactly when the dock
position residual exceeds `0.5`, or some icon's scale differs from `1.0` by
more than `0.01`, or the hide timer is armed, or the cursor is inside the
dock surface. -/
theorem is_animating_iff (s : DockApp) :
    is_animating s = true ↔
      (1:ℚ)/2 < |s.dock_y_target - s.dock_y_current| ∨
      (∃ scale ∈ s.icon_scales, (1:ℚ)/100 < |scale - 1|) ∨
      s.hide_timer.isSome = true ∨
      s.cursor_in_window = true := by
  simp only [is_animating, List.any_eq_true, decide_eq_true_eq, Bool.or_eq_true]
  constructor
  · rintro (((h | h) | h) | h)
    · exact Or.inl h
    · exact Or.inr (Or.inl h)
    · exact Or.inr (Or.inr (Or.inl h))
    · exact Or.inr (Or.inr (Or.inr h))
  · rintro (h | h | h | h)
    · exact Or.inl (Or.inl (Or.inl h))
    · exact Or.inl (Or.inl (Or.inr h))
    · exact Or.inl (Or.inr h)
    · exact Or.inr h

/-! ### Drop-index computation (`DockApp::get_drop_index`, main.rs 1049–1082) -/

/-- `DockApp::get_drop_index`: uniform slots of width `icon_size + spacing`
measured from the left padding edge.  `(rel_x / slot_width) as usize` is the
truncation of a positive quotient, i.e. `⌊rel_x / slot_width⌋.toNat` (the
branch is only reached when `rel_x > 0`). -/
def get_drop_index (r : Renderer) (num_items : ℕ) (cursor_x : ℚ) : ℕ :=
  if num_items = 0 then 0
  else
    let rel_x := cursor_x - (r.padding_left : ℚ)
    let slot_width := (r.icon_size : ℚ) + (r.spacing_x : ℚ)
    if rel_x ≤ 0 then 0
    else
      let slot := (⌊rel_x / slot_width⌋).toNat
      let within_slot := rel_x - (slot : ℚ) * slot_width
      if (r.icon_size : ℚ) / 2 < within_slot then min (slot + 1) num_items
      else min slot num_items

/-- The drop-index rule as claim C5 words it (a second definition following
the specification, for comparison with `get_drop_index`): walk the Layout
Engine's slots — per-item widths with separators contributing
`icon_size / 3`, the row centered in the surface — and inside the slot under
the cursor choose insert-before in the slot's left half, insert-after in its
right half; a cursor past every slot inserts at the end. -/
def drop_index_spec_walk (r : Renderer) (x : ℚ) : ℚ → List DockItem → ℕ → ℕ
  | _, [], i => i
  | x_pos, it :: rest, i =>
      let slot_w := hit_item_width r it + (r.spacing_x : ℚ)
      if x < x_pos + slot_w / 2 then i
      else if x < x_pos + slot_w then i + 1
      else drop_index_spec_walk r x (x_pos + slot_w) rest (i + 1)

/-- The centered layout walk of claim C5, started at the Layout Engine's
`start_x = (width - total_width) / 2`. -/
def drop_index_spec (r : Renderer) (items : List DockItem) (x : ℚ) : ℕ :=
  drop_index_spec_walk r x (hit_start_x r items) items 0

/-- **C5 counterexample.** Icon size 48, spacing 12, zero left padding,
surface width 127, two normal items, cursor at `x = 30`: the code's
uniform-slot rule gives drop index 1 (30 is more than `icon_size/2 = 24`
into slot 0 measured from the padding edge), while the claim's centered
layout walk (row starts at `x = 9.5`, slot midpoint `39.5`) gives 0. -/
theorem get_drop_index_counterexample :
    get_drop_index (Renderer.mk 127 48 12 12 0) 2 30 = 1 ∧
    drop_index_spec (Renderer.mk 127 48 12 12 0)
      [⟨"a", false⟩, ⟨"b", false⟩] 30 = 0 ∧
    get_drop_index (Renderer.mk 127 48 12 12 0) 2 30 ≠
      drop_index_spec (Renderer.mk 127 48 12 12 0)
        [⟨"a", false⟩, ⟨"b", false⟩] 30 := by
  have h1 : get_drop_index (Renderer.mk 127 48 12 12 0) 2 30 = 1 := by
    unfold get_drop_index
    rw [if_neg (by norm_num)]
    simp only []
    rw [if_neg (by norm_num)]
    rw [show ((30:ℚ) - (0:ℕ)) / ((48:ℕ) + (12:ℕ) : ℚ) = 1/2 by push_cast; norm_num]
    rw [show ⌊(1:ℚ)/2⌋ = 0 by norm_num]
    simp only [Int.toNat_zero, Nat.cast_zero, zero_mul, sub_zero]
    rw [if_pos (by push_cast; norm_num)]
    omega
  have hsepa : DockItem.is_separator ⟨"a", false⟩ = false := by decide
  have hsepb : DockItem.is_separator ⟨"b", false⟩ = false := by decide
  have haw : hit_item_width (Renderer.mk 127 48 12 12 0) ⟨"a", false⟩ = 48 := by
    simp [hit_item_width, hsepa]
  have hbw : hit_item_width (Renderer.mk 127 48 12 12 0) ⟨"b", false⟩ = 48 := by
    simp [hit_item_width, hsepb]
  have h2 : drop_index_spec (Renderer.mk 127 48 12 12 0)
      [⟨"a", false⟩, ⟨"b", false⟩] 30 = 0 := by
    unfold drop_index_spec
    have hst : hit_start_x (Renderer.mk 127 48 12 12 0)
        [⟨"a", false⟩, ⟨"b", false⟩] = 19/2 := by
      simp only [hit_start_x, hit_total_width, haw, hbw, List.isEmpty_cons,
        List.isEmpty_nil, if_true, Bool.false_eq_true, if_false]
      norm_num
    rw [hst]
    unfold drop_index_spec_walk
    rw [if_pos]
    rw [haw]
    norm_num
  exact ⟨h1, h2, by rw [h1, h2]; norm_num⟩

/-- The uniform-slot walk equivalent to `get_drop_index`'s floor-division:
step over slots of width `icon_size + spacing` until the remaining offset is
inside the current slot, then choose insert-after iff the offset is more
than `icon_size / 2` into it.  `fuel` bounds the number of slots stepped. -/
def drop_walk_uniform (r : Renderer) : ℕ → ℚ → ℕ
  | 0, _ => 0
  | fuel + 1, rel_x =>
      let slot_width := (r.icon_size : ℚ) + (r.spacing_x : ℚ)
      if rel_x < slot_width then
        (if (r.icon_size : ℚ) / 2 < rel_x then 1 else 0)
      else 1 + drop_walk_uniform r fuel (rel_x - slot_width)

theorem drop_walk_uniform_eq_floor (r : Renderer)
    (hW : 0 < (r.icon_size : ℚ) + (r.spacing_x : ℚ)) :
    ∀ (fuel : ℕ) (rel_x : ℚ), 0 ≤ rel_x →
      ⌊rel_x / ((r.icon_size : ℚ) + (r.spacing_x : ℚ))⌋ < fuel →
      drop_walk_uniform r fuel rel_x
        = (⌊rel_x / ((r.icon_size : ℚ) + (r.spacing_x : ℚ))⌋).toNat
          + (if (r.icon_size : ℚ) / 2
                < rel_x - ((⌊rel_x / ((r.icon_size : ℚ) + (r.spacing_x : ℚ))⌋).toNat : ℚ)
                    * ((r.icon_size : ℚ) + (r.spacing_x : ℚ))
             then 1 else 0) := by
  set W : ℚ := (r.icon_size : ℚ) + (r.spacing_x : ℚ) with hWdef
  intro fuel
  induction fuel with
  | zero =>
    intro rel_x hpos hfuel
    exfalso
    have : (0:ℤ) ≤ ⌊rel_x / W⌋ := Int.floor_nonneg.mpr (by positivity)
    omega
  | succ fuel ih =>
    intro rel_x hpos hfuel
    by_cases hcase : rel_x < W
    · have hfl : ⌊rel_x / W⌋ = 0 := by
        rw [Int.floor_eq_zero_iff]
        constructor
        · positivity
        · rw [div_lt_one hW]; exact hcase
      unfold drop_walk_uniform
      rw [if_pos hcase, hfl]
      simp
    · push_neg at hcase
      have hstep : (rel_x - W) / W = rel_x / W - 1 := by
        field_simp
      have hfl : ⌊(rel_x - W) / W⌋ = ⌊rel_x / W⌋ - 1 := by
        rw [hstep, Int.floor_sub_one]
      have hpos' : 0 ≤ rel_x - W := by linarith
      have hone : (1:ℤ) ≤ ⌊rel_x / W⌋ := by
        rw [Int.le_floor]
        push_cast
        rw [le_div_iff₀ hW]
        linarith
      have hfuel' : ⌊(rel_x - W) / W⌋ < fuel := by
        rw [hfl]; omega
      unfold drop_walk_uniform
      rw [if_neg (by push_neg; exact hcase)]
      rw [ih (rel_x - W) hpos' hfuel', hfl]
      have htn : (⌊rel_x / W⌋ - 1).toNat + 1 = (⌊rel_x / W⌋).toNat := by omega
      have hcast : (((⌊rel_x / W⌋ - 1).toNat : ℚ)) = ((⌊rel_x / W⌋).toNat : ℚ) - 1 := by
        have hz : ((⌊rel_x / W⌋ - 1).toNat : ℤ) = ((⌊rel_x / W⌋).toNat : ℤ) - 1 := by omega
        exact_mod_cast hz
      have hxeq : rel_x - W - ((⌊rel_x / W⌋ - 1).toNat : ℚ) * W
          = rel_x - ((⌊rel_x / W⌋).toNat : ℚ) * W := by
        rw [hcast]; ring
      rw [hxeq]
      split <;> omega

/-- **C5 amended.** For a nonempty item list and a cursor strictly right of
the left padding edge, `get_drop_index` equals the uniform-slot walk from
the padding edge (slot width `icon_size + spacing`, separators counted like
normal items, no row centering), choosing insert-after when the cursor is
more than `icon_size/2` into its slot, clamped to the item count. -/
theorem get_drop_index_uniform_walk (r : Renderer) (n : ℕ) (x : ℚ) (fuel : ℕ)
    (hn : n ≠ 0) (hx : 0 < x - (r.padding_left : ℚ))
    (hW : 0 < (r.icon_size : ℚ) + (r.spacing_x : ℚ))
    (hfuel : ⌊(x - (r.padding_left : ℚ)) / ((r.icon_size : ℚ) + (r.spacing_x : ℚ))⌋ < fuel) :
    get_drop_index r n x
      = min (drop_walk_uniform r fuel (x - (r.padding_left : ℚ))) n := by
  rw [drop_walk_uniform_eq_floor r hW fuel (x - (r.padding_left : ℚ)) (le_of_lt hx) hfuel]
  unfold get_drop_index
  rw [if_neg hn]
  simp only []
  rw [if_neg (by push_neg; exact hx)]
  split
  · omega
  · omega

/-- Witness for the amended C5: icon size 48, spacing 12, two items, cursor
at `x = 30` from a zero left padding edge; both sides give drop index 1. -/
theorem get_drop_index_uniform_walk_witness :
    (2 ≠ 0) ∧ (0 : ℚ) < 30 - ((Renderer.mk 127 48 12 12 0).padding_left : ℚ) ∧
    (0 : ℚ) < ((Renderer.mk 127 48 12 12 0).icon_size : ℚ)
        + ((Renderer.mk 127 48 12 12 0).spacing_x : ℚ) ∧
    ⌊(30 - ((Renderer.mk 127 48 12 12 0).padding_left : ℚ))
        / (((Renderer.mk 127 48 12 12 0).icon_size : ℚ)
            + ((Renderer.mk 127 48 12 12 0).spacing_x : ℚ))⌋ < 1 ∧
    get_drop_index (Renderer.mk 127 48 12 12 0) 2 30
      = min (drop_walk_uniform (Renderer.mk 127 48 12 12 0) 1
          (30 - ((Renderer.mk 127 48 12 12 0).padding_left : ℚ))) 2 :=
  ⟨by norm_num,
   by norm_num,
   by norm_num,
   by push_cast; norm_num,
   get_drop_index_uniform_walk (Renderer.mk 127 48 12 12 0) 2 30 1
     (by norm_num) (by norm_num) (by norm_num) (by push_cast; norm_num)⟩

/-! ### Auto-hide / auto-show timers (`DockApp::check_hide`,
`DockApp::check_show`, `DockApp::check_mouse_position`; main.rs 35–40,
668–690, 770–785) -/

/-- main.rs line 37: `const HIDE_DELAY: Duration = Duration::from_millis(500);`
— a hardcoded constant, not read from the configuration (the configuration
field `auto_hide_delay_ms`, config.rs line 146, is parsed and documented in
the default config template but never consulted). -/
def HIDE_DELAY : ℕ := 500

/-- `DockApp::check_hide` (main.rs 668–678), with the armed timer's elapsed
time in milliseconds passed explicitly.  Note the comparison is against the
constant `HIDE_DELAY`, ignoring any configured hide delay.  Returns the new
`(dock_y_target, hide_timer)` pair. -/
def check_hide (auto_hide : Bool) (hide_timer_elapsed : Option ℕ)
    (dock_y_target dock_y_hidden : ℚ) : ℚ × Option ℕ :=
  if auto_hide = false then (dock_y_target, hide_timer_elapsed)
  else
    match hide_timer_elapsed with
    | some t =>
        if HIDE_DELAY ≤ t then (dock_y_hidden, none)
        else (dock_y_target, some t)
    | none => (dock_y_target, none)

/-- `DockApp::check_show` (main.rs 680–690): the show delay is read from the
configuration (`auto_show_delay_ms`); returns whether `show_dock()` fires. -/
def check_show (auto_hide : Bool) (auto_show_delay_ms : ℕ)
    (show_timer_elapsed : Option ℕ) : Bool :=
  auto_hide &&
    match show_timer_elapsed with
    | some t => decide (auto_show_delay_ms ≤ t)
    | none => false

/-- The cursor-at-edge branch of `DockApp::check_mouse_position`
(main.rs 770–781): with `auto_show_delay_ms == 0` the dock is shown
immediately (`show_dock()` also clears both timers); otherwise a show timer
is armed when none is armed and the target is not the visible position.
Returns `(shown_immediately, new show_timer)`. -/
def edge_show (auto_show_delay_ms : ℕ) (show_timer : Option ℕ)
    (dock_y_target dock_y_visible : ℚ) (now : ℕ) : Bool × Option ℕ :=
  if auto_show_delay_ms = 0 then (true, none)
  else if show_timer = none ∧ dock_y_target ≠ dock_y_visible then
    (false, some now)
  else (false, show_timer)

/-- **C6 (code bug).** The spec scenario: `auto_hide = true`, configured hide
delay 300 ms, hide timer armed and 300 ms elapsed with no further movement.
The claim says the target becomes the hidden position; the code compares the
elapsed time against the hardcoded `HIDE_DELAY = 500` and leaves the dock
target at the visible position (here `0 ≠ 100`).  Only at 500 ms does it
hide and clear the timer.  The show-delay half of the claim is accurate:
the show delay is taken from the configuration, and a zero show delay shows
immediately without arming a timer. -/
theorem check_hide_hardcoded_delay :
    check_hide true (some 300) 0 100 = (0, some 300) ∧
    check_hide true (some 500) 0 100 = (100, none) ∧
    check_show true 300 (some 300) = true ∧
    edge_show 0 none 0 100 7 = (true, none) := by
  refine ⟨?_, ?_, ?_, ?_⟩
  · simp [check_hide, HIDE_DELAY]
  · simp [check_hide, HIDE_DELAY]
  · simp [check_show]
  · simp [edge_show]

/-! ### Magnification wave (`DockApp::update_animations`, main.rs 624–666) -/

/-- The parameters `update_animations` reads for the wave: the renderer's
`icon_size`, `spacing.x`, `padding.left` (all `u32` cast to `f32`) and
`config.dock.magnification` (`max_scale`).  Embedded over `ℝ` because the
target formula uses `cos`. -/
structure MagParams where
  icon_size : ℝ
  spacing_x : ℝ
  padding_left : ℝ
  magnification : ℝ

/-- `let mag_range = icon_size * 3.5;` (main.rs 630). -/
noncomputable def mag_range (p : MagParams) : ℝ := p.icon_size * 3.5

/-- `icon_center_x = padding_left + (i as f32 * (icon_size + spacing_x))
+ icon_size / 2.0` (main.rs 635). -/
noncomputable def icon_center_x (p : MagParams) (i : ℕ) : ℝ :=
  p.padding_left + (i : ℝ) * (p.icon_size + p.spacing_x) + p.icon_size / 2

/-- The per-icon target scale computed each tick (main.rs 637–652):
`1.0` unless `cursor_in_window && cursor_x >= 0.0 && !dragging`; within the
falloff radius the raised-cosine target
`1 + (max_scale - 1) * (1 + cos(dist/range * π)) / 2`, outside it `1.0`. -/
noncomputable def target_scale (p : MagParams) (cursor_in_window dragging : Bool)
    (cursor_x : ℝ) (i : ℕ) : ℝ :=
  if cursor_in_window = true ∧ 0 ≤ cursor_x ∧ dragging = false then
    let dist := |cursor_x - icon_center_x p i|
    if dist < mag_range p then
      let t := dist / mag_range p
      let falloff := (1 + Real.cos (t * Real.pi)) / 2
      1 + (p.magnification - 1) * falloff
    else 1
  else 1

theorem raised_cosine_nonneg (θ : ℝ) : 0 ≤ (1 + Real.cos θ) / 2 := by
  have := Real.neg_one_le_cos θ
  linarith

theorem raised_cosine_le_one (θ : ℝ) : (1 + Real.cos θ) / 2 ≤ 1 := by
  have := Real.cos_le_one θ
  linarith

theorem mag_range_pos (p : MagParams) (hsz : 0 < p.icon_size) :
    0 < mag_range p := by
  unfold mag_range
  nlinarith

/-- **C3.** Each tick's target scale: the raised-cosine formula inside the
falloff radius `3.5 * icon_size` when the cursor is over the dock and no
drag is in progress, `1.0` outside the radius or when the cursor is away or
a drag is active; at an icon's exact center the target is `max_scale`, every
target is at most `max_scale`, and targets decrease monotonically with the
cursor's distance to the icon center. -/
theorem update_animations_target_scale (p : MagParams)
    (hsz : 0 < p.icon_size) (hms : 1 ≤ p.magnification) :
    (∀ (w d : Bool) (x : ℝ) (i : ℕ),
        (w = false ∨ d = true ∨ mag_range p ≤ |x - icon_center_x p i|) →
        target_scale p w d x i = 1) ∧
    (∀ (x : ℝ) (i : ℕ), 0 ≤ x → |x - icon_center_x p i| < mag_range p →
        target_scale p true false x i
          = 1 + (p.magnification - 1)
              * ((1 + Real.cos (|x - icon_center_x p i| / mag_range p * Real.pi)) / 2)) ∧
    (∀ (i : ℕ), 0 ≤ icon_center_x p i →
        target_scale p true false (icon_center_x p i) i = p.magnification) ∧
    (∀ (w d : Bool) (x : ℝ) (j : ℕ), target_scale p w d x j ≤ p.magnification) ∧
    (∀ (x : ℝ) (i j : ℕ), 0 ≤ x →
        |x - icon_center_x p i| ≤ |x - icon_center_x p j| →
        target_scale p true false x j ≤ target_scale p true false x i) := by
  have hrange := mag_range_pos p hsz
  have hcond : ∀ (x : ℝ), 0 ≤ x → ∀ i : ℕ,
      target_scale p true false x i
        = if |x - icon_center_x p i| < mag_range p
          then 1 + (p.magnification - 1)
              * ((1 + Real.cos (|x - icon_center_x p i| / mag_range p * Real.pi)) / 2)
          else 1 := by
    intro x hx i
    unfold target_scale
    rw [if_pos ⟨rfl, hx, rfl⟩]
  refine ⟨?_, ?_, ?_, ?_, ?_⟩
  · intro w d x i h
    rcases h with h | h | h
    · subst h
      unfold target_scale
      rw [if_neg]
      rintro ⟨hw, -, -⟩
      exact Bool.false_ne_true hw
    · subst h
      unfold target_scale
      rw [if_neg]
      rintro ⟨-, -, hd⟩
      simp at hd
    · by_cases hc : w = true ∧ 0 ≤ x ∧ d = false
      · obtain ⟨hw, hx, hd⟩ := hc
        subst hw; subst hd
        rw [hcond x hx i, if_neg (not_lt.mpr h)]
      · unfold target_scale
        rw [if_neg hc]
  · intro x i hx hdist
    rw [hcond x hx i, if_pos hdist]
  · intro i hc
    rw [hcond _ hc i]
    simp only [sub_self, abs_zero]
    rw [if_pos hrange, zero_div, zero_mul, Real.cos_zero]
    ring
  · intro w d x j
    by_cases hc : w = true ∧ 0 ≤ x ∧ d = false
    · obtain ⟨hw, hx, hd⟩ := hc
      subst hw; subst hd
      rw [hcond x hx j]
      by_cases hdist : |x - icon_center_x p j| < mag_range p
      · rw [if_pos hdist]
        have h1 := raised_cosine_le_one
          (|x - icon_center_x p j| / mag_range p * Real.pi)
        have h0 := raised_cosine_nonneg
          (|x - icon_center_x p j| / mag_range p * Real.pi)
        nlinarith
      · rw [if_neg hdist]; linarith
    · unfold target_scale
      rw [if_neg hc]
      linarith
  · intro x i j hx hij
    rw [hcond x hx i, hcond x hx j]
    by_cases hj : |x - icon_center_x p j| < mag_range p
    · have hi : |x - icon_center_x p i| < mag_range p := lt_of_le_of_lt hij hj
      rw [if_pos hi, if_pos hj]
      have hθi : 0 ≤ |x - icon_center_x p i| / mag_range p * Real.pi := by
        have h0i : 0 ≤ |x - icon_center_x p i| := abs_nonneg _
        have := Real.pi_pos
        positivity
      have hθj : |x - icon_center_x p j| / mag_range p * Real.pi ≤ Real.pi := by
        have htj : |x - icon_center_x p j| / mag_range p ≤ 1 :=
          le_of_lt ((div_lt_one hrange).mpr hj)
        nlinarith [Real.pi_pos]
      have hmono : |x - icon_center_x p i| / mag_range p * Real.pi
          ≤ |x - icon_center_x p j| / mag_range p * Real.pi := by
        have hdiv : |x - icon_center_x p i| / mag_range p
            ≤ |x - icon_center_x p j| / mag_range p := by
          gcongr
        exact mul_le_mul_of_nonneg_right hdiv Real.pi_pos.le
      have hcos := Real.cos_le_cos_of_nonneg_of_le_pi hθi hθj hmono
      nlinarith
    · rw [if_neg hj]
      by_cases hi : |x - icon_center_x p i| < mag_range p
      · rw [if_pos hi]
        have h0 := raised_cosine_nonneg
          (|x - icon_center_x p i| / mag_range p * Real.pi)
        nlinarith
      · rw [if_neg hi]

/-- Witness for C3: icon size 48, spacing 12, zero left padding,
magnification 1.5; the cursor at icon 2's center (`x = 144`) gives that
icon the maximal target `1.5`. -/
theorem update_animations_target_scale_witness :
    (0:ℝ) < 48 ∧ (1:ℝ) ≤ 3/2 ∧
    target_scale ⟨48, 12, 0, 3/2⟩ true false
      (icon_center_x ⟨48, 12, 0, 3/2⟩ 2) 2 = (3/2 : ℝ) :=
  ⟨by norm_num, by norm_num,
    (update_animations_target_scale ⟨48, 12, 0, 3/2⟩ (by norm_num)
        (by norm_num)).2.2.1 2
      (by unfold icon_center_x; norm_num)⟩

/-! ### Bicubic resampling (`cubic_hermite`, `bicubic_sample`,
renderer.rs lines 801–807 and 859–889) -/

/-- Channel extraction `(pixel >> shift) & 0xFF` on a `u32`, in arithmetic
form (`>>` is division by `2 ^ shift`, `& 0xFF` is `% 256`). -/
def channel_byte (pixel : ℕ) (shift : ℕ) : ℕ := pixel / 2 ^ shift % 256

/-- `cubic_hermite` (renderer.rs 801–807): Hermite-spline reconstruction
from four taps, evaluated at `t`. -/
def cubic_hermite (a b c d t : ℚ) : ℚ :=
  let a0 := -a / 2 + (3 * b) / 2 - (3 * c) / 2 + d / 2
  let a1 := a - (5 * b) / 2 + 2 * c - d / 2
  let a2 := -a / 2 + c / 2
  let a3 := b
  a0 * t * t * t + a1 * t * t + a2 * t + a3

/-- Tap-coordinate clamp of `bicubic_sample`:
`(x0 - 1 + i).max(0).min(src_w as isize - 1) as usize`.  (For `src_w = 0`
the Rust `as usize` cast of `-1` wraps to a huge index whose lookup also
yields the `unwrap_or(0)` default; the claims use `0 < src_w`.) -/
def clamp_tap (v : ℤ) (src_w : ℕ) : ℤ := min (max v 0) ((src_w : ℤ) - 1)

/-- One tap: `pixels.get(py * src_w + px).copied().unwrap_or(0)`, channel
extracted. -/
def tap (pixels : List ℕ) (src_w : ℕ) (shift : ℕ) (py px : ℕ) : ℚ :=
  (channel_byte (pixels.getD (py * src_w + px) 0) shift : ℚ)

/-- The inner loop of `bicubic_sample` (renderer.rs 871–882): row `j`'s four
horizontal taps interpolated at `fx`. -/
def tap_row (pixels : List ℕ) (src_w : ℕ) (shift : ℕ) (x0 y0 : ℤ) (j : ℕ)
    (fx : ℚ) : ℚ :=
  let py := (clamp_tap (y0 - 1 + j) src_w).toNat
  cubic_hermite
    (tap pixels src_w shift py (clamp_tap (x0 - 1 + 0) src_w).toNat)
    (tap pixels src_w shift py (clamp_tap (x0 - 1 + 1) src_w).toNat)
    (tap pixels src_w shift py (clamp_tap (x0 - 1 + 2) src_w).toNat)
    (tap pixels src_w shift py (clamp_tap (x0 - 1 + 3) src_w).toNat)
    fx

/-- One channel of `bicubic_sample`: the four row values interpolated at
`fy`, then clamped `.max(0.0).min(255.0)` (renderer.rs 885). -/
def sample_channel (pixels : List ℕ) (src_w : ℕ) (shift : ℕ) (x y : ℚ) : ℚ :=
  let x0 := ⌊x⌋
  let y0 := ⌊y⌋
  let fx := x - (x0 : ℚ)
  let fy := y - (y0 : ℚ)
  min (max (cubic_hermite
    (tap_row pixels src_w shift x0 y0 0 fx)
    (tap_row pixels src_w shift x0 y0 1 fx)
    (tap_row pixels src_w shift x0 y0 2 fx)
    (tap_row pixels src_w shift x0 y0 3 fx) fy) 0) 255

/-- `channels[ch] as u32` — truncation toward zero of the clamped non-negative
channel value. -/
def f32_as_u32 (q : ℚ) : ℕ := (⌊q⌋).toNat

/-- `bicubic_sample` (renderer.rs 859–889): the four channels (shifts 24,
16, 8, 0 for A, R, G, B) recombined with `<<` and `|`. -/
def bicubic_sample (pixels : List ℕ) (src_w : ℕ) (x y : ℚ) : ℕ :=
  (f32_as_u32 (sample_channel pixels src_w 24 x y) <<< 24) |||
  (f32_as_u32 (sample_channel pixels src_w 16 x y) <<< 16) |||
  (f32_as_u32 (sample_channel pixels src_w 8 x y) <<< 8) |||
  f32_as_u32 (sample_channel pixels src_w 0 x y)

theorem channel_byte_lt (p s : ℕ) : channel_byte p s < 256 :=
  Nat.mod_lt _ (by norm_num)

theorem cubic_hermite_const (a t : ℚ) : cubic_hermite a a a a t = a := by
  unfold cubic_hermite
  ring

theorem clamp_tap_toNat_lt (v : ℤ) (w : ℕ) (hw : 0 < w) :
    (clamp_tap v w).toNat < w := by
  unfold clamp_tap
  omega

theorem getD_replicate_of_lt (n c d i : ℕ) (h : i < n) :
    (List.replicate n c).getD i d = c := by
  rw [List.getD_eq_getElem?_getD, List.getElem?_replicate, if_pos h]
  rfl

theorem tap_replicate (c w s py px : ℕ) (hpy : py < w) (hpx : px < w) :
    tap (List.replicate (w * w) c) w s py px = (channel_byte c s : ℚ) := by
  unfold tap
  rw [getD_replicate_of_lt]
  calc py * w + px < py * w + w := by omega
    _ = (py + 1) * w := by ring
    _ ≤ w * w := Nat.mul_le_mul_right w hpy

theorem tap_row_replicate (c w s : ℕ) (hw : 0 < w) (x0 y0 : ℤ) (j : ℕ)
    (fx : ℚ) :
    tap_row (List.replicate (w * w) c) w s x0 y0 j fx
      = (channel_byte c s : ℚ) := by
  simp only [tap_row]
  rw [tap_replicate c w s _ _ (clamp_tap_toNat_lt _ _ hw) (clamp_tap_toNat_lt _ _ hw),
    tap_replicate c w s _ _ (clamp_tap_toNat_lt _ _ hw) (clamp_tap_toNat_lt _ _ hw),
    tap_replicate c w s _ _ (clamp_tap_toNat_lt _ _ hw) (clamp_tap_toNat_lt _ _ hw),
    tap_replicate c w s _ _ (clamp_tap_toNat_lt _ _ hw) (clamp_tap_toNat_lt _ _ hw),
    cubic_hermite_const]

theorem sample_channel_replicate (c w s : ℕ) (hw : 0 < w) (x y : ℚ) :
    sample_channel (List.replicate (w * w) c) w s x y
      = (channel_byte c s : ℚ) := by
  simp only [sample_channel]
  rw [tap_row_replicate c w s hw, tap_row_replicate c w s hw,
    tap_row_replicate c w s hw, tap_row_replicate c w s hw,
    cubic_hermite_const]
  have h0 : (0:ℚ) ≤ (channel_byte c s : ℚ) := by positivity
  have h255 : (channel_byte c s : ℚ) ≤ 255 := by
    have := channel_byte_lt c s
    exact_mod_cast Nat.lt_succ_iff.mp (by exact_mod_cast this)
  rw [max_eq_left h0, min_eq_left h255]

theorem f32_as_u32_natCast (n : ℕ) : f32_as_u32 (n : ℚ) = n := by
  unfold f32_as_u32
  rw [Int.floor_natCast, Int.toNat_natCast]

/-- OR of a multiple of `2 ^ k` with a value below `2 ^ k` is their sum:
disjoint bit fields pack additively. -/
theorem lor_eq_add_of_mod_eq_zero (x y k : ℕ) (hx : x % 2 ^ k = 0)
    (hy : y < 2 ^ k) : x ||| y = x + y := by
  obtain ⟨a, rfl⟩ : ∃ a, x = 2 ^ k * a :=
    ⟨x / 2 ^ k, (Nat.mul_div_cancel' (Nat.dvd_of_mod_eq_zero hx)).symm⟩
  apply Nat.eq_of_testBit_eq
  intro i
  rw [Nat.testBit_lor, Nat.testBit_mul_pow_two,
    Nat.testBit_mul_pow_two_add a hy i]
  by_cases h : i < k
  · have : ¬ i ≥ k := by omega
    simp [h, this]
  · have hik : i ≥ k := by omega
    have hbb : y.testBit i = false :=
      Nat.testBit_lt_two_pow
        (lt_of_lt_of_le hy (Nat.pow_le_pow_right (by norm_num) hik))
    simp [h, hik, hbb]

/-- **C8.** `bicubic_sample` over a uniform solid-color source buffer of any
positive width returns exactly that color at every sample coordinate, so
bicubic resampling of a flat source reproduces the solid color with no
ringing. -/
theorem bicubic_sample_uniform (c src_w : ℕ) (hc : c < 2 ^ 32)
    (hw : 0 < src_w) (x y : ℚ) :
    bicubic_sample (List.replicate (src_w * src_w) c) src_w x y = c := by
  unfold bicubic_sample
  rw [sample_channel_replicate c src_w 24 hw, sample_channel_replicate c src_w 16 hw,
    sample_channel_replicate c src_w 8 hw, sample_channel_replicate c src_w 0 hw,
    f32_as_u32_natCast, f32_as_u32_natCast, f32_as_u32_natCast, f32_as_u32_natCast,
    Nat.shiftLeft_eq, Nat.shiftLeft_eq, Nat.shiftLeft_eq]
  have h24 := channel_byte_lt c 24
  have h16 := channel_byte_lt c 16
  have h8 := channel_byte_lt c 8
  have h0 := channel_byte_lt c 0
  rw [lor_eq_add_of_mod_eq_zero (channel_byte c 24 * 2 ^ 24)
      (channel_byte c 16 * 2 ^ 16) 24 (by omega) (by omega),
    lor_eq_add_of_mod_eq_zero
      (channel_byte c 24 * 2 ^ 24 + channel_byte c 16 * 2 ^ 16)
      (channel_byte c 8 * 2 ^ 8) 16 (by omega) (by omega),
    lor_eq_add_of_mod_eq_zero
      (channel_byte c 24 * 2 ^ 24 + channel_byte c 16 * 2 ^ 16
        + channel_byte c 8 * 2 ^ 8)
      (channel_byte c 0) 8 (by omega) (by omega)]
  unfold channel_byte
  omega

/-- Witness for C8: a 2×2 uniform buffer of color `0x01020304`, sampled at
`(1/2, 3/2)`. -/
theorem bicubic_sample_uniform_witness :
    16909060 < 2 ^ 32 ∧ 0 < 2 ∧
    bicubic_sample (List.replicate (2 * 2) 16909060) 2 (1/2) (3/2)
      = 16909060 :=
  ⟨by norm_num, by norm_num,
    bicubic_sample_uniform 16909060 2 (by norm_num) (by norm_num) (1/2) (3/2)⟩

/-! ### Alpha blending (`alpha_blend`, renderer.rs lines 763–790) -/

/-- `out_a = sa + da * (255 - sa) / 255` (renderer.rs 780), all operations
`u32` (truncating division). -/
def blend_out_a (dst src : ℕ) : ℕ :=
  channel_byte src 24 + channel_byte dst 24 * (255 - channel_byte src 24) / 255

/-- `out_r = (sr * sa + dr * da * (255 - sa) / 255) / out_a`
(renderer.rs 785); division by zero never happens in `alpha_blend` because
the `out_a == 0` guard returns first. -/
def blend_out_r (dst src : ℕ) : ℕ :=
  (channel_byte src 16 * channel_byte src 24
    + channel_byte dst 16 * channel_byte dst 24 * (255 - channel_byte src 24) / 255)
    / blend_out_a dst src

/-- `out_g` (renderer.rs 786). -/
def blend_out_g (dst src : ℕ) : ℕ :=
  (channel_byte src 8 * channel_byte src 24
    + channel_byte dst 8 * channel_byte dst 24 * (255 - channel_byte src 24) / 255)
    / blend_out_a dst src

/-- `out_b` (renderer.rs 787). -/
def blend_out_b (dst src : ℕ) : ℕ :=
  (channel_byte src 0 * channel_byte src 24
    + channel_byte dst 0 * channel_byte dst 24 * (255 - channel_byte src 24) / 255)
    / blend_out_a dst src

/-- `alpha_blend` (renderer.rs 763–790): source-over blending with early
returns for fully transparent (`sa == 0`) and fully opaque (`sa == 255`)
sources and a guard returning `0` when the computed output alpha is zero. -/
def alpha_blend (dst src : ℕ) : ℕ :=
  let sa := channel_byte src 24
  if sa = 0 then dst
  else if sa = 255 then src
  else if blend_out_a dst src = 0 then 0
  else
    (blend_out_a dst src <<< 24) ||| (blend_out_r dst src <<< 16) |||
    (blend_out_g dst src <<< 8) ||| blend_out_b dst src

/-- **C10 counterexample.** `dst = src = 0x01FF0000` (alpha 1, red 255):
the computed red channel is `(255*1 + 255*1*254/255) / 1 = 509 > 0xFF`, so
the packed result `0x01FD0000` no longer carries the computed channels in
its 8-bit fields (its red field is `0xFD = 253 ≠ 509`): the claim that all
four channel fields stay at most `0xFF` with no cross-channel overflow is
false. -/
theorem alpha_blend_counterexample :
    blend_out_r 33488896 33488896 = 509 ∧
    ¬ blend_out_r 33488896 33488896 ≤ 255 ∧
    alpha_blend 33488896 33488896 = 33357824 ∧
    channel_byte (alpha_blend 33488896 33488896) 16 = 253 ∧
    channel_byte (alpha_blend 33488896 33488896) 16
      ≠ blend_out_r 33488896 33488896 := by
  refine ⟨by decide, by decide, ?_, ?_, ?_⟩ <;> decide

theorem channel_byte_le (p s : ℕ) : channel_byte p s ≤ 255 :=
  Nat.lt_succ_iff.mp (channel_byte_lt p s)

theorem blend_out_a_le (dst src : ℕ) : blend_out_a dst src ≤ 255 := by
  unfold blend_out_a
  have hsa := channel_byte_le src 24
  have hda := channel_byte_le dst 24
  have h1 : channel_byte dst 24 * (255 - channel_byte src 24)
      ≤ 255 * (255 - channel_byte src 24) :=
    Nat.mul_le_mul_right _ hda
  have h2 : channel_byte dst 24 * (255 - channel_byte src 24) / 255
      ≤ 255 * (255 - channel_byte src 24) / 255 :=
    Nat.div_le_div_right h1
  have h3 : 255 * (255 - channel_byte src 24) / 255
      = 255 - channel_byte src 24 :=
    Nat.mul_div_cancel_left _ (by norm_num)
  omega

theorem blend_numerator_le (dst src s : ℕ) :
    channel_byte src s * channel_byte src 24
      + channel_byte dst s * channel_byte dst 24 * (255 - channel_byte src 24) / 255
      ≤ 255 * 255 := by
  have hss := channel_byte_le src s
  have hsa := channel_byte_le src 24
  have hds := channel_byte_le dst s
  have hda := channel_byte_le dst 24
  have h1 : channel_byte src s * channel_byte src 24
      ≤ 255 * channel_byte src 24 := Nat.mul_le_mul_right _ hss
  have h2 : channel_byte dst s * channel_byte dst 24 * (255 - channel_byte src 24)
      ≤ 255 * 255 * (255 - channel_byte src 24) := by
    apply Nat.mul_le_mul_right
    exact Nat.mul_le_mul hds hda
  have h3 : channel_byte dst s * channel_byte dst 24 * (255 - channel_byte src 24) / 255
      ≤ 255 * 255 * (255 - channel_byte src 24) / 255 :=
    Nat.div_le_div_right h2
  have h4 : 255 * 255 * (255 - channel_byte src 24) / 255
      = 255 * (255 - channel_byte src 24) := by
    rw [show (255:ℕ) * 255 * (255 - channel_byte src 24)
        = 255 * (255 * (255 - channel_byte src 24)) by ring]
    exact Nat.mul_div_cancel_left _ (by norm_num)
  omega

/-- **C10 amended.** `alpha_blend` is total: the division by the output alpha
is guarded (`out_a = 0` returns `0` without dividing, and whenever the source
alpha is nonzero `out_a` is positive, so the guard branch is never taken with
a nonzero source alpha).  The computed output alpha always fits in 8 bits and
the packed result is a valid `u32`; when the destination is fully opaque
(`da = 0xFF`) the computed color channels also stay at most `0xFF` — but in
general they may exceed `0xFF` and bleed into the neighbouring field
(see the counterexample). -/
theorem alpha_blend_wellformed (dst src : ℕ) (hd : dst < 2 ^ 32)
    (hs : src < 2 ^ 32) :
    alpha_blend dst src < 2 ^ 32 ∧
    blend_out_a dst src ≤ 255 ∧
    (channel_byte src 24 ≠ 0 → 0 < blend_out_a dst src) ∧
    (channel_byte dst 24 = 255 →
      blend_out_r dst src ≤ 255 ∧ blend_out_g dst src ≤ 255 ∧
      blend_out_b dst src ≤ 255) := by
  have hoa := blend_out_a_le dst src
  have hpos : channel_byte src 24 ≠ 0 → 0 < blend_out_a dst src := by
    intro h
    unfold blend_out_a
    omega
  refine ⟨?_, hoa, hpos, ?_⟩
  · simp only [alpha_blend]
    by_cases h1 : channel_byte src 24 = 0
    · rw [if_pos h1]; exact hd
    · rw [if_neg h1]
      by_cases h2 : channel_byte src 24 = 255
      · rw [if_pos h2]; exact hs
      · rw [if_neg h2]
        by_cases h3 : blend_out_a dst src = 0
        · rw [if_pos h3]; norm_num
        · rw [if_neg h3]
          have hrb : blend_out_r dst src ≤ 255 * 255 := by
            unfold blend_out_r
            exact le_trans (Nat.div_le_self _ _) (blend_numerator_le dst src 16)
          have hgb : blend_out_g dst src ≤ 255 * 255 := by
            unfold blend_out_g
            exact le_trans (Nat.div_le_self _ _) (blend_numerator_le dst src 8)
          have hbb : blend_out_b dst src ≤ 255 * 255 := by
            unfold blend_out_b
            exact le_trans (Nat.div_le_self _ _) (blend_numerator_le dst src 0)
          rw [Nat.shiftLeft_eq, Nat.shiftLeft_eq, Nat.shiftLeft_eq]
          have l1 : blend_out_a dst src * 2 ^ 24 < 2 ^ 32 := by omega
          have l2 : blend_out_r dst src * 2 ^ 16 < 2 ^ 32 := by omega
          have l3 : blend_out_g dst src * 2 ^ 8 < 2 ^ 32 := by omega
          have l4 : blend_out_b dst src < 2 ^ 32 := by omega
          exact Nat.bitwise_lt_two_pow
            (Nat.bitwise_lt_two_pow (Nat.bitwise_lt_two_pow l1 l2) l3) l4
  · intro hda
    have hsa := channel_byte_le src 24
    have houta : blend_out_a dst src = 255 := by
      unfold blend_out_a
      rw [hda, Nat.mul_div_cancel_left _ (by norm_num : (0:ℕ) < 255)]
      omega
    have hgen : ∀ s : ℕ, (channel_byte src s * channel_byte src 24
        + channel_byte dst s * channel_byte dst 24 * (255 - channel_byte src 24) / 255)
        / blend_out_a dst src ≤ 255 := by
      intro s
      have hss := channel_byte_le src s
      have hds := channel_byte_le dst s
      have hnum2 : channel_byte dst s * channel_byte dst 24 * (255 - channel_byte src 24) / 255
          = channel_byte dst s * (255 - channel_byte src 24) := by
        rw [hda, show channel_byte dst s * 255 * (255 - channel_byte src 24)
            = 255 * (channel_byte dst s * (255 - channel_byte src 24)) by ring,
          Nat.mul_div_cancel_left _ (by norm_num : (0:ℕ) < 255)]
      rw [houta, hnum2]
      have hkey : channel_byte src s * channel_byte src 24
          + channel_byte dst s * (255 - channel_byte src 24) ≤ 255 * 255 := by
        have h1 : channel_byte src s * channel_byte src 24
            ≤ 255 * channel_byte src 24 := Nat.mul_le_mul_right _ hss
        have h2 : channel_byte dst s * (255 - channel_byte src 24)
            ≤ 255 * (255 - channel_byte src 24) := Nat.mul_le_mul_right _ hds
        omega
      calc (channel_byte src s * channel_byte src 24
            + channel_byte dst s * (255 - channel_byte src 24)) / 255
          ≤ 255 * 255 / 255 := Nat.div_le_div_right hkey
        _ = 255 := by norm_num
    exact ⟨by unfold blend_out_r; exact hgen 16,
           by unfold blend_out_g; exact hgen 8,
           by unfold blend_out_b; exact hgen 0⟩

/-- Witness for the amended C10: semi-transparent source over an opaque
destination. -/
theorem alpha_blend_wellformed_witness :
    (2155905152 : ℕ) < 2 ^ 32 ∧ (2130739286 : ℕ) < 2 ^ 32 ∧
    alpha_blend 2155905152 2130739286 < 2 ^ 32 :=
  ⟨by norm_num, by norm_num,
    (alpha_blend_wellformed 2155905152 2130739286
      (by norm_num) (by norm_num)).1⟩

end RDock
